import Mathlib

/-!
Shallow embedding of the audio pacing/mixing core of `cli_backup.js`.

JavaScript `number` arithmetic on sample values and millisecond deltas is
modelled exactly over `ℚ`/`ℤ`; `Math.round` is `⌊x + 1/2⌋` (round half
toward +∞), `Math.floor` is `Int.floor`, and storing into an `Int16Array`
wraps modulo 2^16 into `[-32768, 32767]`.
-/

namespace GptFdb

/-- JavaScript `Math.round`: round half toward positive infinity. -/
def jsRound (q : ℚ) : ℤ := ⌊q + 1/2⌋

/-- `Math.max(-32768, Math.min(32767, x))` — the mixer's saturating clamp. -/
def clamp16 (x : ℤ) : ℤ := max (-32768) (min 32767 x)

/-- Storing a value into an `Int16Array` cell: wrap modulo 2^16 into
`[-32768, 32767]`. -/
def toInt16 (x : ℤ) : ℤ := (x + 32768) % 65536 - 32768

/-- Decoding one 32-bit-float channel value `f`:
`Math.round(Math.max(-1, Math.min(1, f)) * 32767)` (cli_backup.js line 70). -/
def decodeFloat32 (f : ℚ) : ℤ := jsRound (max (-1) (min 1 f) * 32767)

/-- The downmix loop body (cli_backup.js lines 65–75): sum the already decoded
channel values of one frame, divide by the channel count, `Math.round`, and
store into the `Int16Array` cell. -/
def downmixFrame (vals : List ℤ) : ℤ :=
  toInt16 (jsRound ((vals.sum : ℚ) / (vals.length : ℚ)))

/-- Downmix of a whole interleaved signal, frame by frame. -/
def downmix (frames : List (List ℤ)) : List ℤ := frames.map downmixFrame

/-- The loop body of the resampler (cli_backup.js lines 84–90): the sample the
non-identity branch stores at output index `i`. -/
def resampleAt (samples : List ℤ) (sourceRate targetRate : ℕ) (i : ℕ) : ℤ :=
  let idx : ℚ := (i : ℚ) / ((targetRate : ℚ) / (sourceRate : ℚ))
  let i0 : ℤ := ⌊idx⌋
  let i1 : ℤ := min (i0 + 1) ((samples.length : ℤ) - 1)
  let frac : ℚ := idx - (i0 : ℚ)
  toInt16 (jsRound ((samples.getD i0.toNat 0 : ℚ) * (1 - frac)
    + (samples.getD i1.toNat 0 : ℚ) * frac))

/-- The resampler (cli_backup.js lines 77–93): identity when the rates agree,
otherwise linear interpolation at positions `i / (targetRate/sourceRate)`,
`Math.round`ed and stored into an `Int16Array`. -/
def resample (samples : List ℤ) (sourceRate targetRate : ℕ) : List ℤ :=
  if sourceRate = targetRate then samples
  else
    (List.range
        (⌊(samples.length : ℚ) * ((targetRate : ℚ) / (sourceRate : ℚ))⌋).toNat).map
      (resampleAt samples sourceRate targetRate)

/-- One frame of the pacer loop (cli_backup.js lines 162–170): the slice of
`frameSize` samples starting at `k * frameSize`, zero-padded to `frameSize`. -/
def pacerFrame (input : List ℤ) (frameSize k : ℕ) : List ℤ :=
  let chunk := (input.drop (k * frameSize)).take frameSize
  chunk ++ List.replicate (frameSize - chunk.length) 0

/-- The pacer loop: one frame per loop iteration, i.e. one per multiple of
`frameSize` below the input length. -/
def pacerFrames (input : List ℤ) (frameSize : ℕ) : List (List ℤ) :=
  (List.range ((input.length + frameSize - 1) / frameSize)).map
    (pacerFrame input frameSize)

/-- The completion watcher's transition (cli_backup.js lines 139–142): a
control message sets `done` exactly when its `type` is `"response.done"`;
every other message leaves the flag unchanged. -/
def watcherStep (done : Bool) (msgType : String) : Bool :=
  if msgType = "response.done" then true else done

/-- Running the watcher from its initial state (`done = false`,
i.e. AWAITING_RESPONSE) over a whole sequence of control messages. -/
def watcherRun (msgs : List String) : Bool := msgs.foldl watcherStep false

/-- An inbound audio buffer with its arrival instant (`process.hrtime.bigint()`
nanoseconds), as pushed by `sink.ondata` (cli_backup.js line 134). -/
structure TimestampedBuffer where
  samples : List ℤ
  time : ℤ
  deriving DecidableEq, Repr

/-- Offset of a buffer in samples (cli_backup.js lines 185–188):
`delta = Number(time - startTime) / 1e6` milliseconds, then
`Math.round(delta * sampleRate / 1000)`. -/
def offsetSamples (startTime : ℤ) (sampleRate : ℕ) (b : TimestampedBuffer) : ℤ :=
  jsRound (((b.time - startTime : ℤ) : ℚ) / 1000000 * (sampleRate : ℚ) / 1000)

/-- One store of the mixing loop (cli_backup.js lines 198–200):
`sum = (outputSamples[j] || 0) + s; outputSamples[j] = clamp(sum)`.
An out-of-range `j` reads as 0 and the store is silently dropped. -/
def mixWrite (out : List ℤ) (j : ℤ) (s : ℤ) : List ℤ :=
  if 0 ≤ j ∧ j.toNat < out.length then
    out.set j.toNat (clamp16 (out.getD j.toNat 0 + s))
  else out

/-- The inner mixing loop over one buffer's samples, writing sample `i` at
index `pos + i`. -/
def applyBuf : List ℤ → ℤ → List ℤ → List ℤ
  | out, _, [] => out
  | out, pos, s :: rest => applyBuf (mixWrite out pos s) (pos + 1) rest

/-- The output length (cli_backup.js lines 184–192): the maximum of the input
length and `offset + length` over all buffers. -/
def mixLength (input : List ℤ) (startTime : ℤ) (sampleRate : ℕ)
    (bufs : List TimestampedBuffer) : ℤ :=
  bufs.foldl
    (fun m b => max m (offsetSamples startTime sampleRate b + (b.samples.length : ℤ)))
    (input.length : ℤ)

/-- The mixer (cli_backup.js lines 181–202): allocate `maxIndex` zeroed cells,
copy the input to the front, then apply every buffer at its offset with
saturating addition. -/
def mixOutput (input : List ℤ) (startTime : ℤ) (sampleRate : ℕ)
    (bufs : List TimestampedBuffer) : List ℤ :=
  let init := input ++
    List.replicate ((mixLength input startTime sampleRate bufs).toNat - input.length) 0
  bufs.foldl (fun out b => applyBuf out (offsetSamples startTime sampleRate b) b.samples) init

/-- The total contribution of buffer `b` to output index `k`: its sample
`k - offset` when `k` lies in the buffer's window, 0 otherwise. -/
def contribAt (startTime : ℤ) (sampleRate : ℕ) (k : ℕ) (b : TimestampedBuffer) : ℤ :=
  if offsetSamples startTime sampleRate b ≤ (k : ℤ) ∧
      (k : ℤ) < offsetSamples startTime sampleRate b + (b.samples.length : ℤ) then
    b.samples.getD ((k : ℤ) - offsetSamples startTime sampleRate b).toNat 0
  else 0

/-! ### Basic arithmetic lemmas -/

lemma jsRound_intCast (n : ℤ) : jsRound (n : ℚ) = n := by
  unfold jsRound
  rw [Int.floor_int_add]
  norm_num

lemma jsRound_mono {p q : ℚ} (h : p ≤ q) : jsRound p ≤ jsRound q :=
  Int.floor_le_floor (by linarith)

lemma jsRound_le {q : ℚ} {n : ℤ} (h : q ≤ (n : ℚ)) : jsRound q ≤ n := by
  have := jsRound_mono h
  rwa [jsRound_intCast] at this

lemma le_jsRound {q : ℚ} {n : ℤ} (h : (n : ℚ) ≤ q) : n ≤ jsRound q := by
  have := jsRound_mono h
  rwa [jsRound_intCast] at this

lemma toInt16_eq_self {x : ℤ} (h1 : -32768 ≤ x) (h2 : x ≤ 32767) : toInt16 x = x := by
  unfold toInt16
  rw [Int.emod_eq_of_lt (by omega) (by omega)]
  omega

lemma clamp16_eq_self {x : ℤ} (h1 : -32768 ≤ x) (h2 : x ≤ 32767) : clamp16 x = x := by
  unfold clamp16
  omega

lemma clamp16_mem_range (x : ℤ) : -32768 ≤ clamp16 x ∧ clamp16 x ≤ 32767 := by
  unfold clamp16
  omega

lemma getD_mem_range {l : List ℤ} (h : ∀ v ∈ l, -32768 ≤ v ∧ v ≤ 32767) (n : ℕ) :
    -32768 ≤ l.getD n 0 ∧ l.getD n 0 ≤ 32767 := by
  rcases lt_or_le n l.length with h' | h'
  · rw [List.getD_eq_getElem _ _ h']
    exact h _ (l.getElem_mem h')
  · rw [List.getD_eq_default _ _ h']
    norm_num

/-! ### Resampler identity and mixer identity -/

/-- C5: for every input SampleSequence, when `sourceRate == targetRate` the
resampler returns the input unchanged, sample for sample. -/
theorem resample_identity_law : ∀ (s : List ℤ) (r : ℕ), resample s r r = s := by
  intro s r
  simp [resample]

/-- C8: for every input SampleSequence, when the list of TimestampedBuffers is
empty the MixBuffer equals the input SampleSequence exactly, with the same
length. -/
theorem mixer_identity_empty :
    ∀ (input : List ℤ) (startTime : ℤ) (sampleRate : ℕ),
      mixOutput input startTime sampleRate [] = input := by
  intro input startTime sampleRate
  simp [mixOutput, mixLength]

/-! ### Completion watcher -/

lemma watcher_foldl (msgs : List String) (d : Bool) :
    msgs.foldl watcherStep d = (d || msgs.any fun m => m == "response.done") := by
  induction msgs generalizing d with
  | nil => simp
  | cons m ms ih =>
    by_cases hm : m = "response.done"
    · simp [watcherStep, hm, ih]
    · have hb : (m == "response.done") = false := by simp [hm]
      simp [watcherStep, hm, ih, hb]

/-- C9: starting in AWAITING_RESPONSE (`done = false`), the watcher ends in
DONE exactly when some control message has type `"response.done"`, and every
message of any other type leaves the state unchanged. -/
theorem watcher_transitions :
    ∀ msgs : List String,
      (watcherRun msgs = true ↔ "response.done" ∈ msgs) ∧
      (∀ (d : Bool) (t : String), t ≠ "response.done" → watcherStep d t = d) := by
  intro msgs
  constructor
  · rw [watcherRun, watcher_foldl]
    simp [List.any_eq_true]
  · intro d t ht
    simp [watcherStep, ht]

/-- Witness for C9 at a concrete message sequence and a concrete
unrecognized message. -/
theorem watcher_transitions_witness :
    (watcherRun ["session.created", "response.done"] = true ↔
      "response.done" ∈ ["session.created", "response.done"]) ∧
    watcherStep false "session.created" = false :=
  ⟨(watcher_transitions ["session.created", "response.done"]).1,
    (watcher_transitions ["session.created", "response.done"]).2 false
      "session.created" (by decide)⟩

/-! ### Downmix -/

/-- C7: for every nonempty multi-channel frame of in-range channel values, the
mono sample equals the per-frame sum divided by the channel count, rounded
under the fixed convention `Math.round` (half toward +∞); a decoded 32-bit
float channel value is clamped into `[-32767, 32767]`; and concretely
`(100, 200)` downmixes to `150` and `(-100, 99)` to `0`. -/
theorem downmix_rule :
    ∀ vals : List ℤ, vals ≠ [] → (∀ v ∈ vals, -32768 ≤ v ∧ v ≤ 32767) →
      downmixFrame vals = jsRound ((vals.sum : ℚ) / (vals.length : ℚ)) ∧
      (∀ f : ℚ, -32767 ≤ decodeFloat32 f ∧ decodeFloat32 f ≤ 32767) ∧
      downmixFrame [100, 200] = 150 ∧
      downmixFrame [-100, 99] = 0 := by
  intro vals hne h
  have hlen : 0 < vals.length := List.length_pos.mpr hne
  have hlenQ : (0 : ℚ) < (vals.length : ℚ) := by exact_mod_cast hlen
  refine ⟨?_, ?_, by norm_num [downmixFrame, jsRound, toInt16],
    by norm_num [downmixFrame, jsRound, toInt16]⟩
  · have hub : vals.sum ≤ 32767 * (vals.length : ℤ) := by
      have := List.sum_le_card_nsmul vals 32767 (fun x hx => (h x hx).2)
      simpa [nsmul_eq_mul, mul_comm] using this
    have hlb : -32768 * (vals.length : ℤ) ≤ vals.sum := by
      have := List.card_nsmul_le_sum vals (-32768) (fun x hx => (h x hx).1)
      simpa [nsmul_eq_mul, mul_comm] using this
    have hq_ub : (vals.sum : ℚ) / (vals.length : ℚ) ≤ ((32767 : ℤ) : ℚ) := by
      rw [div_le_iff₀ hlenQ]
      exact_mod_cast hub
    have hq_lb : (((-32768 : ℤ)) : ℚ) ≤ (vals.sum : ℚ) / (vals.length : ℚ) := by
      rw [le_div_iff₀ hlenQ]
      exact_mod_cast hlb
    exact toInt16_eq_self (le_jsRound hq_lb) (jsRound_le hq_ub)
  · intro f
    set c : ℚ := max (-1) (min 1 f) with hc
    have hc1 : c ≤ 1 := by
      rw [hc]
      simp only [max_le_iff]
      constructor <;> [norm_num; exact min_le_left 1 f]
    have hc2 : -1 ≤ c := le_max_left _ _
    constructor
    · exact le_jsRound (by push_cast; nlinarith)
    · exact jsRound_le (by push_cast; nlinarith)

/-- Witness for C7 at the concrete frame `(100, 200)`. -/
theorem downmix_rule_witness :
    downmixFrame [100, 200] =
        jsRound ((([100, 200] : List ℤ).sum : ℚ) / (([100, 200] : List ℤ).length : ℚ)) ∧
      (∀ f : ℚ, -32767 ≤ decodeFloat32 f ∧ decodeFloat32 f ≤ 32767) ∧
      downmixFrame [100, 200] = 150 ∧
      downmixFrame [-100, 99] = 0 :=
  downmix_rule [100, 200] (by decide) (by decide)

/-! ### Resampler length -/

lemma toNat_floor_natCast_div (a b : ℕ) :
    (⌊(a : ℚ) / (b : ℚ)⌋).toNat = a / b := by
  have h0 : (0 : ℚ) ≤ (a : ℚ) / (b : ℚ) := by positivity
  rw [← Int.natCast_floor_eq_floor h0, Int.toNat_natCast, Nat.floor_div_nat,
    Nat.floor_natCast]

/-- C4: for positive rates, the resampler's output length is
`floor(inputLength * targetRate / sourceRate)`; in particular an empty input
yields an empty output. -/
theorem resample_output_length :
    ∀ (s : List ℤ) (sourceRate targetRate : ℕ),
      0 < sourceRate → 0 < targetRate →
      (resample s sourceRate targetRate).length = s.length * targetRate / sourceRate ∧
      (s.length = 0 → (resample s sourceRate targetRate).length = 0) := by
  intro s src tgt hsrc htgt
  have main : (resample s src tgt).length = s.length * tgt / src := by
    by_cases h : src = tgt
    · subst h
      have hid : resample s src src = s := by simp [resample]
      rw [hid, Nat.mul_div_cancel _ hsrc]
    · rw [resample, if_neg h]
      simp only [List.length_map, List.length_range]
      have hcast : (s.length : ℚ) * ((tgt : ℚ) / (src : ℚ)) =
          ((s.length * tgt : ℕ) : ℚ) / ((src : ℕ) : ℚ) := by
        push_cast
        ring
      rw [hcast, toNat_floor_natCast_div]
  exact ⟨main, fun h0 => by rw [main, h0, Nat.zero_mul, Nat.zero_div]⟩

/-- Witness for C4 at a concrete input and rate pair. -/
theorem resample_output_length_witness :
    (resample [1, 2, 3, 4, 5, 6, 7, 8, 9, 10] 8000 12000).length =
        ([1, 2, 3, 4, 5, 6, 7, 8, 9, 10] : List ℤ).length * 12000 / 8000 ∧
      (([1, 2, 3, 4, 5, 6, 7, 8, 9, 10] : List ℤ).length = 0 →
        (resample [1, 2, 3, 4, 5, 6, 7, 8, 9, 10] 8000 12000).length = 0) :=
  resample_output_length [1, 2, 3, 4, 5, 6, 7, 8, 9, 10] 8000 12000
    (by decide) (by decide)

/-! ### Frame pacer -/

lemma pacerFrame_length (input : List ℤ) (F k : ℕ) :
    (pacerFrame input F k).length = F := by
  have h : ((input.drop (k * F)).take F).length ≤ F := by
    simp [List.length_take]
  simp only [pacerFrame, List.length_append, List.length_replicate]
  omega

lemma pacer_flatten_range (F : ℕ) (input : List ℤ) :
    ∀ N : ℕ, (((List.range N).map (pacerFrame input F)).flatten =
      input.take (N * F) ++
        List.replicate (N * F - min (N * F) input.length) 0) := by
  intro N
  induction N with
  | zero => simp
  | succ N ih =>
    rw [List.range_succ, List.map_append, List.flatten_append, ih]
    simp only [List.map_cons, List.map_nil, List.flatten_cons, List.flatten_nil,
      List.append_nil]
    have hchunk : ((input.drop (N * F)).take F).length =
        min F (input.length - N * F) := by
      simp [List.length_take, List.length_drop]
    rw [Nat.succ_mul]
    rcases le_or_lt input.length (N * F) with h | h
    · have hdrop : input.drop (N * F) = [] := List.drop_eq_nil_of_le h
      have htake : input.take (N * F) = input := List.take_of_length_le h
      have htake' : input.take (N * F + F) = input :=
        List.take_of_length_le (by omega)
      rw [pacerFrame, hdrop, htake, htake']
      simp only [List.take_nil, List.length_nil, Nat.sub_zero, List.nil_append]
      rw [List.append_assoc, ← List.replicate_add]
      have : N * F - min (N * F) input.length + F =
          N * F + F - min (N * F + F) input.length := by omega
      rw [this]
    · have h1 : N * F - min (N * F) input.length = 0 := by omega
      rw [h1, List.replicate_zero, List.append_nil, pacerFrame,
        List.take_add, List.append_assoc]
      have : F - ((input.drop (N * F)).take F).length =
          N * F + F - min (N * F + F) input.length := by omega
      rw [this]

lemma pacer_ceil_cover (L F : ℕ) (hF : 0 < F) : L ≤ ((L + F - 1) / F) * F := by
  rcases Nat.eq_zero_or_pos L with h0 | hL
  · omega
  · have hrw : L + F - 1 = (L - 1) + F := by omega
    rw [hrw, Nat.add_div_right _ hF, add_mul, one_mul]
    have h1 := Nat.div_add_mod (L - 1) F
    have h2 : (L - 1) % F < F := Nat.mod_lt _ hF
    have h3 : F * ((L - 1) / F) = (L - 1) / F * F := Nat.mul_comm _ _
    omega

lemma pacer_ceil_tight (L F : ℕ) (hF : 0 < F) : ((L + F - 1) / F) * F < L + F := by
  rcases Nat.eq_zero_or_pos L with h0 | hL
  · subst h0
    rw [Nat.zero_add, Nat.div_eq_of_lt (by omega : F - 1 < F)]
    omega
  · have hrw : L + F - 1 = (L - 1) + F := by omega
    rw [hrw, Nat.add_div_right _ hF, add_mul, one_mul]
    have := Nat.div_mul_le_self (L - 1) F
    omega

/-- C3: for every input of length `L` and positive frame size `F`, the pacer
emits exactly `⌈L/F⌉` frames, every frame has length exactly `F`, and the
frames concatenate in order to the input zero-padded to the total frame
length — nothing truncated, skipped or overlapping. -/
theorem pacer_framing :
    ∀ (input : List ℤ) (F : ℕ), 0 < F →
      (pacerFrames input F).length = (input.length + F - 1) / F ∧
      ((pacerFrames input F).length : ℤ) = ⌈(input.length : ℚ) / (F : ℚ)⌉ ∧
      (∀ fr ∈ pacerFrames input F, fr.length = F) ∧
      (pacerFrames input F).flatten =
        input ++ List.replicate ((pacerFrames input F).length * F - input.length) 0 := by
  intro input F hF
  have hlen : (pacerFrames input F).length = (input.length + F - 1) / F := by
    simp [pacerFrames]
  have hcover := pacer_ceil_cover input.length F hF
  refine ⟨hlen, ?_, ?_, ?_⟩
  · rw [hlen]
    symm
    rw [Int.ceil_eq_iff]
    have hFQ : (0 : ℚ) < (F : ℚ) := by exact_mod_cast hF
    constructor
    · rw [lt_div_iff₀ hFQ]
      have h := pacer_ceil_tight input.length F hF
      have hq : ((((input.length + F - 1) / F : ℕ) : ℤ) : ℚ) * (F : ℚ) <
          (input.length : ℚ) + (F : ℚ) := by exact_mod_cast h
      linarith
    · rw [div_le_iff₀ hFQ]
      exact_mod_cast hcover
  · intro fr hfr
    rw [pacerFrames] at hfr
    obtain ⟨k, _, rfl⟩ := List.mem_map.mp hfr
    exact pacerFrame_length input F k
  · rw [hlen, pacerFrames, pacer_flatten_range]
    rw [min_eq_right hcover, List.take_of_length_le hcover]

/-- Witness for C3 at the concrete input `[1, 2, 3, 4, 5]` with frame size 2. -/
theorem pacer_framing_witness :
    (pacerFrames [1, 2, 3, 4, 5] 2).length =
        (([1, 2, 3, 4, 5] : List ℤ).length + 2 - 1) / 2 ∧
      ((pacerFrames [1, 2, 3, 4, 5] 2).length : ℤ) =
        ⌈((([1, 2, 3, 4, 5] : List ℤ).length : ℚ)) / ((2 : ℕ) : ℚ)⌉ ∧
      (∀ fr ∈ pacerFrames [1, 2, 3, 4, 5] 2, fr.length = 2) ∧
      (pacerFrames [1, 2, 3, 4, 5] 2).flatten =
        [1, 2, 3, 4, 5] ++
          List.replicate ((pacerFrames [1, 2, 3, 4, 5] 2).length * 2 -
            ([1, 2, 3, 4, 5] : List ℤ).length) 0 :=
  pacer_framing [1, 2, 3, 4, 5] 2 (by decide)

/-! ### Mixer structure lemmas -/

lemma mixWrite_length (out : List ℤ) (j s : ℤ) :
    (mixWrite out j s).length = out.length := by
  unfold mixWrite
  split <;> simp

lemma applyBuf_length (samples : List ℤ) :
    ∀ (out : List ℤ) (pos : ℤ), (applyBuf out pos samples).length = out.length := by
  induction samples with
  | nil => intro out pos; rfl
  | cons s rest ih =>
    intro out pos
    rw [applyBuf, ih, mixWrite_length]

lemma mixWrite_getD (out : List ℤ) (j s : ℤ) (k : ℕ) (hk : k < out.length) :
    (mixWrite out j s).getD k 0 =
      if (k : ℤ) = j then clamp16 (out.getD k 0 + s) else out.getD k 0 := by
  unfold mixWrite
  by_cases hkj : (k : ℤ) = j
  · rw [if_pos hkj, if_pos (by omega : (0 : ℤ) ≤ j ∧ j.toNat < out.length)]
    have hjk : j.toNat = k := by omega
    rw [hjk, List.getD_eq_getElem _ _ (by simpa using hk), List.getElem_set_self]
  · rw [if_neg hkj]
    split
    · have hne : j.toNat ≠ k := by omega
      rw [List.getD_eq_getElem _ _ (by simpa using hk), List.getElem_set_ne hne,
        ← List.getD_eq_getElem _ _ hk]
    · rfl

lemma applyBuf_getD (samples : List ℤ) :
    ∀ (out : List ℤ) (pos : ℤ) (k : ℕ), k < out.length →
      (applyBuf out pos samples).getD k 0 =
        if pos ≤ (k : ℤ) ∧ (k : ℤ) < pos + (samples.length : ℤ) then
          clamp16 (out.getD k 0 + samples.getD ((k : ℤ) - pos).toNat 0)
        else out.getD k 0 := by
  induction samples with
  | nil =>
    intro out pos k hk
    rw [applyBuf, if_neg (by simp)]
  | cons s rest ih =>
    intro out pos k hk
    rw [applyBuf, ih _ _ k (by rw [mixWrite_length]; exact hk),
      mixWrite_getD out pos s k hk]
    simp only [List.length_cons]
    by_cases hA : (k : ℤ) = pos
    · rw [if_neg (by omega), if_pos hA, if_pos (by constructor <;> omega)]
      rw [show ((k : ℤ) - pos).toNat = 0 by omega, List.getD_cons_zero]
    · rw [if_neg hA]
      by_cases hB : pos + 1 ≤ (k : ℤ) ∧ (k : ℤ) < pos + 1 + (rest.length : ℤ)
      · rw [if_pos hB, if_pos (by constructor <;> omega)]
        rw [show ((k : ℤ) - pos).toNat = ((k : ℤ) - (pos + 1)).toNat + 1 by omega,
          List.getD_cons_succ]
      · rw [if_neg hB, if_neg (by omega)]

lemma le_mixLength (input : List ℤ) (startTime : ℤ) (sampleRate : ℕ)
    (bufs : List TimestampedBuffer) :
    (input.length : ℤ) ≤ mixLength input startTime sampleRate bufs := by
  unfold mixLength
  generalize (input.length : ℤ) = a
  induction bufs generalizing a with
  | nil => exact le_refl a
  | cons b rest ih =>
    rw [List.foldl_cons]
    exact le_trans (le_max_left _ _) (ih _)

lemma mixFold_length (startTime : ℤ) (sampleRate : ℕ) :
    ∀ (bufs : List TimestampedBuffer) (out : List ℤ),
      (bufs.foldl
          (fun o b => applyBuf o (offsetSamples startTime sampleRate b) b.samples)
          out).length = out.length := by
  intro bufs
  induction bufs with
  | nil => intro out; rfl
  | cons b rest ih =>
    intro out
    rw [List.foldl_cons, ih, applyBuf_length]

lemma mixOutput_length (input : List ℤ) (startTime : ℤ) (sampleRate : ℕ)
    (bufs : List TimestampedBuffer) :
    (mixOutput input startTime sampleRate bufs).length =
      (mixLength input startTime sampleRate bufs).toNat := by
  have h := le_mixLength input startTime sampleRate bufs
  unfold mixOutput
  rw [mixFold_length]
  simp only [List.length_append, List.length_replicate]
  omega

lemma init_getD (input : List ℤ) (n : ℕ) (j : ℕ) :
    (input ++ List.replicate n 0).getD j 0 = input.getD j 0 := by
  rcases lt_or_le j input.length with h | h
  · rw [List.getD_append _ _ _ _ h]
  · rw [List.getD_append_right _ _ _ _ h, List.getD_eq_default _ _ h,
      List.getD_eq_getElem?_getD, List.getElem?_replicate]
    split <;> rfl

lemma mixOutput_single_getD (input : List ℤ) (startTime : ℤ) (sampleRate : ℕ)
    (b : TimestampedBuffer) (k : ℕ)
    (hk : k < (mixOutput input startTime sampleRate [b]).length) :
    (mixOutput input startTime sampleRate [b]).getD k 0 =
      if offsetSamples startTime sampleRate b ≤ (k : ℤ) ∧
          (k : ℤ) < offsetSamples startTime sampleRate b + (b.samples.length : ℤ) then
        clamp16 (input.getD k 0 +
          b.samples.getD ((k : ℤ) - offsetSamples startTime sampleRate b).toNat 0)
      else input.getD k 0 := by
  have hk' : k <
      (input ++
        List.replicate ((mixLength input startTime sampleRate [b]).toNat -
          input.length) 0).length := by
    have h1 := mixOutput_length input startTime sampleRate [b]
    unfold mixOutput at h1
    rw [mixFold_length] at h1
    have h2 := mixOutput_length input startTime sampleRate [b]
    omega
  unfold mixOutput
  rw [List.foldl_cons, List.foldl_nil, applyBuf_getD _ _ _ _ hk', init_getD]

/-- C10: a TimestampedBuffer arriving before the stream start gets a negative
offset which is not clamped to 0: every output index below `offset + length`
receives the buffer sample aimed at it (added with saturation), all other
indices keep the input value — so the samples aimed at negative indices are
silently dropped — and the output is at least as long as the input. -/
theorem mixer_negative_offset :
    ∀ (input : List ℤ) (startTime : ℤ) (sampleRate : ℕ) (b : TimestampedBuffer),
      offsetSamples startTime sampleRate b < 0 →
      input.length ≤ (mixOutput input startTime sampleRate [b]).length ∧
      ∀ j : ℕ, j < (mixOutput input startTime sampleRate [b]).length →
        (mixOutput input startTime sampleRate [b]).getD j 0 =
          if (j : ℤ) < offsetSamples startTime sampleRate b + (b.samples.length : ℤ) then
            clamp16 (input.getD j 0 +
              b.samples.getD ((j : ℤ) - offsetSamples startTime sampleRate b).toNat 0)
          else input.getD j 0 := by
  intro input startTime sampleRate b hneg
  constructor
  · have h1 := le_mixLength input startTime sampleRate [b]
    have h2 := mixOutput_length input startTime sampleRate [b]
    omega
  · intro j hj
    rw [mixOutput_single_getD input startTime sampleRate b j hj]
    by_cases hw : (j : ℤ) < offsetSamples startTime sampleRate b + (b.samples.length : ℤ)
    · rw [if_pos hw, if_pos ⟨by omega, hw⟩]
    · rw [if_neg hw, if_neg (by omega)]

/-- Witness for C10: a buffer of fifty samples of value 5 arriving 1 ms before
stream start at 48000 Hz gets offset −48; only its last two samples land, on
input indices 0 and 1. -/
theorem mixer_negative_offset_witness :
    ([100, 200, 300] : List ℤ).length ≤
        (mixOutput [100, 200, 300] 0 48000
          [⟨List.replicate 50 5, -1000000⟩]).length ∧
      ∀ j : ℕ, j < (mixOutput [100, 200, 300] 0 48000
          [⟨List.replicate 50 5, -1000000⟩]).length →
        (mixOutput [100, 200, 300] 0 48000
            [⟨List.replicate 50 5, -1000000⟩]).getD j 0 =
          if (j : ℤ) < offsetSamples 0 48000 ⟨List.replicate 50 5, -1000000⟩ +
              ((List.replicate (50 : ℕ) (5 : ℤ)).length : ℤ) then
            clamp16 (([100, 200, 300] : List ℤ).getD j 0 +
              (List.replicate 50 5).getD
                ((j : ℤ) - offsetSamples 0 48000 ⟨List.replicate 50 5, -1000000⟩).toNat 0)
          else ([100, 200, 300] : List ℤ).getD j 0 :=
  mixer_negative_offset [100, 200, 300] 0 48000 ⟨List.replicate 50 5, -1000000⟩
    (by norm_num [offsetSamples, jsRound])

/-! ### End-to-end scenario -/

lemma getD_replicate_zero (n j : ℕ) : (List.replicate n (0 : ℤ)).getD j 0 = 0 := by
  rw [List.getD_eq_getElem?_getD, List.getElem?_replicate]
  split <;> rfl

lemma getD_replicate_of_lt (n j : ℕ) (a : ℤ) (h : j < n) :
    (List.replicate n a).getD j 0 = a := by
  rw [List.getD_eq_getElem?_getD, List.getElem?_replicate, if_pos h]
  rfl

/-- C1: on one second of silence at 48000 Hz with a single 10-sample inbound
buffer of value 1000 arriving 500 ms after stream start, the MixBuffer has
length 48000, carries 1000 exactly at indices 24000–24009, and 0 elsewhere. -/
theorem mixer_end_to_end_silence_scenario :
    ∀ t0 : ℤ,
      (mixOutput (List.replicate 48000 0) t0 48000
          [⟨List.replicate 10 1000, t0 + 500000000⟩]).length = 48000 ∧
      ∀ j : ℕ, j < 48000 →
        (mixOutput (List.replicate 48000 0) t0 48000
            [⟨List.replicate 10 1000, t0 + 500000000⟩]).getD j 0 =
          if 24000 ≤ j ∧ j < 24010 then 1000 else 0 := by
  intro t0
  have hoff : offsetSamples t0 48000 ⟨List.replicate 10 1000, t0 + 500000000⟩ =
      24000 := by
    unfold offsetSamples
    rw [show (t0 + 500000000 - t0 : ℤ) = 500000000 by ring]
    norm_num [jsRound]
  have hmaxlen : mixLength (List.replicate 48000 0) t0 48000
      [⟨List.replicate 10 1000, t0 + 500000000⟩] = 48000 := by
    unfold mixLength
    rw [List.foldl_cons, List.foldl_nil, hoff]
    norm_num
  have hlen : (mixOutput (List.replicate 48000 0) t0 48000
      [⟨List.replicate 10 1000, t0 + 500000000⟩]).length = 48000 := by
    rw [mixOutput_length, hmaxlen]
    rfl
  refine ⟨hlen, ?_⟩
  intro j hj
  rw [mixOutput_single_getD _ _ _ _ _ (by rw [hlen]; exact hj), hoff]
  simp only [List.length_replicate]
  by_cases hw : 24000 ≤ j ∧ j < 24010
  · rw [if_pos (by constructor <;> omega), if_pos hw,
      getD_replicate_zero, getD_replicate_of_lt 10 _ 1000 (by omega)]
    norm_num [clamp16]
  · rw [if_neg (by omega), if_neg hw, getD_replicate_zero]

/-- Witness for C1 at `t0 = 0`, sampled at output index 24005. -/
theorem mixer_end_to_end_silence_scenario_witness :
    (mixOutput (List.replicate 48000 0) 0 48000
        [⟨List.replicate 10 1000, 0 + 500000000⟩]).length = 48000 ∧
      (mixOutput (List.replicate 48000 0) 0 48000
          [⟨List.replicate 10 1000, 0 + 500000000⟩]).getD 24005 0 =
        if 24000 ≤ 24005 ∧ 24005 < 24010 then 1000 else 0 :=
  ⟨(mixer_end_to_end_silence_scenario 0).1,
    (mixer_end_to_end_silence_scenario 0).2 24005 (by decide)⟩

/-! ### Mixer saturation -/

lemma getD_nonneg {l : List ℤ} (h : ∀ v ∈ l, 0 ≤ v) (n : ℕ) : 0 ≤ l.getD n 0 := by
  rcases lt_or_le n l.length with h' | h'
  · rw [List.getD_eq_getElem _ _ h']
    exact h _ (l.getElem_mem h')
  · rw [List.getD_eq_default _ _ h']

lemma contribAt_nonneg (startTime : ℤ) (sampleRate : ℕ) (k : ℕ)
    (b : TimestampedBuffer) (h : ∀ v ∈ b.samples, 0 ≤ v) :
    0 ≤ contribAt startTime sampleRate k b := by
  unfold contribAt
  split
  · exact getD_nonneg h _
  · exact le_refl 0

lemma mixWrite_mem_range {out : List ℤ} (j s : ℤ)
    (h : ∀ v ∈ out, -32768 ≤ v ∧ v ≤ 32767) :
    ∀ v ∈ mixWrite out j s, -32768 ≤ v ∧ v ≤ 32767 := by
  unfold mixWrite
  split
  · intro v hv
    rcases List.mem_or_eq_of_mem_set hv with h' | h'
    · exact h v h'
    · rw [h']
      exact clamp16_mem_range _
  · exact h

lemma applyBuf_mem_range (samples : List ℤ) :
    ∀ (out : List ℤ) (pos : ℤ), (∀ v ∈ out, -32768 ≤ v ∧ v ≤ 32767) →
      ∀ v ∈ applyBuf out pos samples, -32768 ≤ v ∧ v ≤ 32767 := by
  induction samples with
  | nil => intro out pos h; exact h
  | cons s rest ih =>
    intro out pos h
    rw [applyBuf]
    exact ih _ _ (mixWrite_mem_range pos s h)

lemma mixFold_mem_range (startTime : ℤ) (sampleRate : ℕ) :
    ∀ (bufs : List TimestampedBuffer) (out : List ℤ),
      (∀ v ∈ out, -32768 ≤ v ∧ v ≤ 32767) →
      ∀ v ∈ bufs.foldl
          (fun o b => applyBuf o (offsetSamples startTime sampleRate b) b.samples)
          out,
        -32768 ≤ v ∧ v ≤ 32767 := by
  intro bufs
  induction bufs with
  | nil => intro out h; exact h
  | cons b rest ih =>
    intro out h
    rw [List.foldl_cons]
    exact ih _ (applyBuf_mem_range _ _ _ h)

lemma applyBuf_getD_contrib (startTime : ℤ) (sampleRate : ℕ)
    (b : TimestampedBuffer) (out : List ℤ) (k : ℕ) (hk : k < out.length)
    (hlo : -32768 ≤ out.getD k 0) (hhi : out.getD k 0 ≤ 32767)
    (hc : 0 ≤ contribAt startTime sampleRate k b) :
    (applyBuf out (offsetSamples startTime sampleRate b) b.samples).getD k 0 =
      min 32767 (out.getD k 0 + contribAt startTime sampleRate k b) := by
  rw [applyBuf_getD _ _ _ _ hk]
  unfold contribAt at hc ⊢
  by_cases h : offsetSamples startTime sampleRate b ≤ (k : ℤ) ∧
      (k : ℤ) < offsetSamples startTime sampleRate b + (b.samples.length : ℤ)
  · rw [if_pos h] at hc
    rw [if_pos h, if_pos h]
    unfold clamp16
    omega
  · rw [if_neg h, if_neg h]
    omega

lemma mixFold_getD_contrib (startTime : ℤ) (sampleRate : ℕ) :
    ∀ (bufs : List TimestampedBuffer) (out : List ℤ) (k : ℕ),
      k < out.length → -32768 ≤ out.getD k 0 → out.getD k 0 ≤ 32767 →
      (∀ b ∈ bufs, 0 ≤ contribAt startTime sampleRate k b) →
      (bufs.foldl
          (fun o b => applyBuf o (offsetSamples startTime sampleRate b) b.samples)
          out).getD k 0 =
        min 32767 (out.getD k 0 +
          (bufs.map (contribAt startTime sampleRate k)).sum) := by
  intro bufs
  induction bufs with
  | nil =>
    intro out k hk hlo hhi _
    simp only [List.foldl_nil, List.map_nil, List.sum_nil, add_zero]
    omega
  | cons b rest ih =>
    intro out k hk hlo hhi hnn
    have hc : 0 ≤ contribAt startTime sampleRate k b :=
      hnn b (List.mem_cons_self b rest)
    have hS : 0 ≤ (rest.map (contribAt startTime sampleRate k)).sum :=
      List.sum_nonneg (by
        intro x hx
        obtain ⟨b', hb', rfl⟩ := List.mem_map.mp hx
        exact hnn b' (List.mem_cons_of_mem b hb'))
    have h1 := applyBuf_getD_contrib startTime sampleRate b out k hk hlo hhi hc
    rw [List.foldl_cons,
      ih _ k (by rw [applyBuf_length]; exact hk)
        (by rw [h1]; omega) (by rw [h1]; omega)
        (fun b' hb' => hnn b' (List.mem_cons_of_mem b hb')),
      h1, List.map_cons, List.sum_cons]
    omega

/-- C2 (amended): each individual addition immediately clamps the sum of the
current cell and the buffer sample to `[-32768, 32767]`; consequently every
MixBuffer sample stays in `[-32768, 32767]` — never a wrapped-around value —
and at any output index at which every inbound contribution is nonnegative,
the output is `min 32767 (zero-extended input + sum of contributions)`, in
particular exactly 32767 whenever that sum exceeds 32767. -/
theorem mixer_saturation_amended :
    (∀ (out : List ℤ) (j s : ℤ), 0 ≤ j → j.toNat < out.length →
      (mixWrite out j s).getD j.toNat 0 = clamp16 (out.getD j.toNat 0 + s)) ∧
    (∀ (input : List ℤ) (startTime : ℤ) (sampleRate : ℕ)
        (bufs : List TimestampedBuffer),
      (∀ v ∈ input, -32768 ≤ v ∧ v ≤ 32767) →
      ∀ v ∈ mixOutput input startTime sampleRate bufs, -32768 ≤ v ∧ v ≤ 32767) ∧
    (∀ (input : List ℤ) (startTime : ℤ) (sampleRate : ℕ)
        (bufs : List TimestampedBuffer) (k : ℕ),
      k < (mixOutput input startTime sampleRate bufs).length →
      (∀ v ∈ input, -32768 ≤ v ∧ v ≤ 32767) →
      (∀ b ∈ bufs, 0 ≤ contribAt startTime sampleRate k b) →
      (mixOutput input startTime sampleRate bufs).getD k 0 =
        min 32767 (input.getD k 0 +
          (bufs.map (contribAt startTime sampleRate k)).sum) ∧
      (32767 < input.getD k 0 +
          (bufs.map (contribAt startTime sampleRate k)).sum →
        (mixOutput input startTime sampleRate bufs).getD k 0 = 32767)) := by
  refine ⟨?_, ?_, ?_⟩
  · intro out j s hj hjl
    rw [mixWrite_getD out j s j.toNat hjl, if_pos (by omega)]
  · intro input startTime sampleRate bufs hin
    unfold mixOutput
    refine mixFold_mem_range startTime sampleRate bufs _ ?_
    intro v hv
    rcases List.mem_append.mp hv with h | h
    · exact hin v h
    · rw [List.eq_of_mem_replicate h]
      norm_num
  · intro input startTime sampleRate bufs k hk hin hnn
    have hinit : ∀ j : ℕ,
        (input ++
          List.replicate ((mixLength input startTime sampleRate bufs).toNat -
            input.length) 0).getD j 0 = input.getD j 0 :=
      fun j => init_getD input _ j
    have hrange := getD_mem_range hin k
    rw [mixOutput_length] at hk
    have hlelen := le_mixLength input startTime sampleRate bufs
    have hmain : (mixOutput input startTime sampleRate bufs).getD k 0 =
        min 32767 (input.getD k 0 +
          (bufs.map (contribAt startTime sampleRate k)).sum) := by
      unfold mixOutput
      rw [mixFold_getD_contrib startTime sampleRate bufs _ k
        (by simp only [List.length_append, List.length_replicate]; omega)
        (by rw [hinit]; exact hrange.1) (by rw [hinit]; exact hrange.2) hnn,
        hinit]
    exact ⟨hmain, fun hgt => by rw [hmain]; omega⟩

/-- Witness for C2 (amended): a single write clamps `5 + 40000` to 32767; the
output of mixing two 20000-valued one-sample buffers over `[0]` stays in
range; and its sample 0 equals `min 32767 (0 + 40000) = 32767`. -/
theorem mixer_saturation_amended_witness :
    (mixWrite [5] 0 40000).getD (0 : ℤ).toNat 0 =
        clamp16 (([5] : List ℤ).getD (0 : ℤ).toNat 0 + 40000) ∧
      (∀ v ∈ mixOutput [0] 0 48000 [⟨[20000], 0⟩, ⟨[20000], 0⟩],
        -32768 ≤ v ∧ v ≤ 32767) ∧
      (mixOutput [0] 0 48000 [⟨[20000], 0⟩, ⟨[20000], 0⟩]).getD 0 0 =
        min 32767 (([0] : List ℤ).getD 0 0 +
          (([⟨[20000], 0⟩, ⟨[20000], 0⟩] : List TimestampedBuffer).map
            (contribAt 0 48000 0)).sum) :=
  ⟨mixer_saturation_amended.1 [5] 0 40000 (by decide) (by decide),
    mixer_saturation_amended.2.1 [0] 0 48000 [⟨[20000], 0⟩, ⟨[20000], 0⟩]
      (by decide),
    (mixer_saturation_amended.2.2 [0] 0 48000 [⟨[20000], 0⟩, ⟨[20000], 0⟩] 0
      (by
        rw [mixOutput_length]
        norm_num [mixLength, List.foldl_cons, List.foldl_nil, offsetSamples,
          jsRound])
      (by decide)
      (by
        intro b hb
        simp only [List.mem_cons, List.not_mem_nil, or_false] at hb
        rcases hb with rfl | rfl <;>
          norm_num [contribAt, offsetSamples, jsRound])).1⟩

/-- Counterexample to C2 as stated: contributions 20000, 20000 and −1 overlap
at index 0 of a zero input, their sum 39999 exceeds 32767, yet sequential
clamped addition produces 32766, not 32767. -/
theorem mixer_saturation_counterexample :
    (32767 : ℤ) < 20000 + 20000 + (-1) ∧
      mixOutput [0] 0 48000 [⟨[20000], 0⟩, ⟨[20000], 0⟩, ⟨[-1], 0⟩] = [32766] ∧
      (32766 : ℤ) ≠ 32767 := by
  have hoff : ∀ s : List ℤ, offsetSamples 0 48000 ⟨s, 0⟩ = 0 := by
    intro s
    norm_num [offsetSamples, jsRound]
  refine ⟨by norm_num, ?_, by norm_num⟩
  unfold mixOutput mixLength
  simp only [List.foldl_cons, List.foldl_nil, hoff]
  decide

/-! ### Resampler per-sample formula -/

/-- C6: with distinct positive rates and in-range input samples, output sample
`i` is `round(input[i0]*(1-frac) + input[i1]*frac)` clamped to the 16-bit
range, for `idx = i/(targetRate/sourceRate)`, `i0 = ⌊idx⌋`,
`i1 = min (i0+1) (inputLength-1)` and `frac = idx - i0`. -/
theorem resample_sample_formula :
    ∀ (s : List ℤ) (sourceRate targetRate : ℕ),
      sourceRate ≠ targetRate → 0 < sourceRate → 0 < targetRate →
      (∀ v ∈ s, -32768 ≤ v ∧ v ≤ 32767) →
      ∀ i : ℕ, i < (resample s sourceRate targetRate).length →
        (resample s sourceRate targetRate).getD i 0 =
          clamp16 (jsRound (
            (s.getD (⌊(i : ℚ) / ((targetRate : ℚ) / (sourceRate : ℚ))⌋).toNat 0 : ℚ) *
              (1 - ((i : ℚ) / ((targetRate : ℚ) / (sourceRate : ℚ)) -
                ((⌊(i : ℚ) / ((targetRate : ℚ) / (sourceRate : ℚ))⌋ : ℤ) : ℚ))) +
            (s.getD (min (⌊(i : ℚ) / ((targetRate : ℚ) / (sourceRate : ℚ))⌋ + 1)
                ((s.length : ℤ) - 1)).toNat 0 : ℚ) *
              ((i : ℚ) / ((targetRate : ℚ) / (sourceRate : ℚ)) -
                ((⌊(i : ℚ) / ((targetRate : ℚ) / (sourceRate : ℚ))⌋ : ℤ) : ℚ)))) := by
  intro s src tgt hne hs ht hrange i hi
  rw [resample, if_neg hne] at hi ⊢
  rw [List.length_map, List.length_range] at hi
  rw [List.getD_eq_getElem _ _ (by simpa using hi), List.getElem_map,
    List.getElem_range]
  simp only [resampleAt]
  set idx : ℚ := (i : ℚ) / ((tgt : ℚ) / (src : ℚ)) with hidx
  set i0 : ℤ := ⌊idx⌋ with hi0
  set i1 : ℤ := min (i0 + 1) ((s.length : ℤ) - 1) with hi1
  set frac : ℚ := idx - (i0 : ℚ) with hfrac
  set v0 : ℤ := s.getD i0.toNat 0 with hv0
  set v1 : ℤ := s.getD i1.toNat 0 with hv1
  have hr0 := getD_mem_range hrange i0.toNat
  have hr1 := getD_mem_range hrange i1.toNat
  rw [← hv0] at hr0
  rw [← hv1] at hr1
  have hv0lo : (-32768 : ℚ) ≤ (v0 : ℚ) := by exact_mod_cast hr0.1
  have hv0hi : (v0 : ℚ) ≤ 32767 := by exact_mod_cast hr0.2
  have hv1lo : (-32768 : ℚ) ≤ (v1 : ℚ) := by exact_mod_cast hr1.1
  have hv1hi : (v1 : ℚ) ≤ 32767 := by exact_mod_cast hr1.2
  have ht0 : 0 ≤ frac := by
    rw [hfrac, hi0]
    have := Int.floor_le idx
    linarith
  have ht1 : frac ≤ 1 := by
    rw [hfrac, hi0]
    have := Int.lt_floor_add_one idx
    linarith
  have hA : 0 ≤ ((v0 : ℚ) + 32768) * (1 - frac) :=
    mul_nonneg (by linarith) (by linarith)
  have hB : 0 ≤ ((v1 : ℚ) + 32768) * frac := mul_nonneg (by linarith) ht0
  have hC : 0 ≤ (32767 - (v0 : ℚ)) * (1 - frac) :=
    mul_nonneg (by linarith) (by linarith)
  have hD : 0 ≤ (32767 - (v1 : ℚ)) * frac := mul_nonneg (by linarith) ht0
  have hlow : ((-32768 : ℤ) : ℚ) ≤ (v0 : ℚ) * (1 - frac) + (v1 : ℚ) * frac := by
    push_cast
    nlinarith [hA, hB]
  have hhigh : (v0 : ℚ) * (1 - frac) + (v1 : ℚ) * frac ≤ ((32767 : ℤ) : ℚ) := by
    push_cast
    nlinarith [hC, hD]
  have hjlo : (-32768 : ℤ) ≤ jsRound ((v0 : ℚ) * (1 - frac) + (v1 : ℚ) * frac) :=
    le_jsRound hlow
  have hjhi : jsRound ((v0 : ℚ) * (1 - frac) + (v1 : ℚ) * frac) ≤ (32767 : ℤ) :=
    jsRound_le hhigh
  rw [toInt16_eq_self hjlo hjhi, clamp16_eq_self hjlo hjhi]

/-- Witness for C6: upsampling `[0, 1000]` from 8000 Hz to 16000 Hz, output
index 1 interpolates halfway to 500. -/
theorem resample_sample_formula_witness :
    (resample [0, 1000] 8000 16000).getD 1 0 =
      clamp16 (jsRound (
        (([0, 1000] : List ℤ).getD
            (⌊((1 : ℕ) : ℚ) / (((16000 : ℕ) : ℚ) / ((8000 : ℕ) : ℚ))⌋).toNat 0 : ℚ) *
          (1 - (((1 : ℕ) : ℚ) / (((16000 : ℕ) : ℚ) / ((8000 : ℕ) : ℚ)) -
            ((⌊((1 : ℕ) : ℚ) / (((16000 : ℕ) : ℚ) / ((8000 : ℕ) : ℚ))⌋ : ℤ) : ℚ))) +
        (([0, 1000] : List ℤ).getD
            (min (⌊((1 : ℕ) : ℚ) / (((16000 : ℕ) : ℚ) / ((8000 : ℕ) : ℚ))⌋ + 1)
              ((([0, 1000] : List ℤ).length : ℤ) - 1)).toNat 0 : ℚ) *
          (((1 : ℕ) : ℚ) / (((16000 : ℕ) : ℚ) / ((8000 : ℕ) : ℚ)) -
            ((⌊((1 : ℕ) : ℚ) / (((16000 : ℕ) : ℚ) / ((8000 : ℕ) : ℚ))⌋ : ℤ) : ℚ)))) :=
  resample_sample_formula [0, 1000] 8000 16000 (by decide) (by decide) (by decide)
    (by decide) 1 (by norm_num [resample])

end GptFdb
